import Mathlib

/-!
Formal model of the ethvalidator resolution-and-caching core.

The Go sources are embedded shallowly:
* `pkg/cache/memory.go` — the TTL cache (`MemoryCache`), with the entry map
  represented as an association list with distinct keys (Go map iteration
  order is fixed to list order; all stated properties are order-robust),
  wall-clock instants as `Int` (Go's `time.Time`, with the `time.Time` zero
  value represented by `0`, matching the `IsZero` test in `evictOldest`),
  and the stop channel as an explicit closed-flag with Go's
  close-of-closed-channel panic made explicit.
* `internal/service/validator.go` — the resolution service, with the
  beacon-node collaborator abstracted as a record of responses and Go's
  `(value, error)` returns plus possible panics as a three-way result.
* `pkg/errors` — the error taxonomy, with `fmt.Errorf("...: \x25w", err)`
  wrapping and `errors.Is` chain inspection modelled structurally.
* `pkg/ethereum/client.go` — the slot/epoch/period arithmetic of
  `GetSyncCommittee`.

Machine `uint64` values are modelled as `Nat`; the only arithmetic operation
in scope that can overflow is `currentSlot + 32*256`, which is taken modulo
`2^64`. Strings are compared at the character level; every string constant
involved is ASCII, where Go's byte-wise operations agree.
-/

/-! ## TTL cache (`pkg/cache/memory.go`) -/

/-- One Go channel, reduced to whether it has been closed. -/
structure GoChan where
  closed : Bool
deriving DecidableEq, Repr

/-- Go's `close(ch)`: panics (here: `Except.error`) on a closed channel. -/
def chanClose (ch : GoChan) : Except String GoChan :=
  if ch.closed then Except.error "close of closed channel"
  else Except.ok { closed := true }

/-- `cacheItem`: a stored value together with its expiry instant. -/
structure cacheItem (V : Type) where
  value : V
  expiration : Int
deriving DecidableEq, Repr

/-- `MemoryCache`: entry map (association list with distinct keys), ttl,
capacity bound and the reaper stop channel. -/
structure MemoryCache (V : Type) where
  items : List (String × cacheItem V)
  ttl : Int
  maxSize : Nat
  stopChan : GoChan
deriving DecidableEq, Repr

/-- Go map read `c.items[key]`. -/
def lookupItem {V : Type} : List (String × cacheItem V) → String → Option (cacheItem V)
  | [], _ => none
  | (k, it) :: rest, key => if k = key then some it else lookupItem rest key

/-- Go map write `c.items[key] = it`: replace the existing binding in place,
otherwise append. -/
def insertItem {V : Type} : List (String × cacheItem V) → String → cacheItem V →
    List (String × cacheItem V)
  | [], key, it => [(key, it)]
  | (k, old) :: rest, key, it =>
    if k = key then (key, it) :: rest else (k, old) :: insertItem rest key it

/-- Go map delete `delete(c.items, key)`. -/
def eraseItem {V : Type} : List (String × cacheItem V) → String → List (String × cacheItem V)
  | [], _ => []
  | (k, old) :: rest, key => if k = key then rest else (k, old) :: eraseItem rest key

/-- Keys of the entry map. -/
def keysOf {V : Type} (l : List (String × cacheItem V)) : List String := l.map Prod.fst

/-- `NewMemoryCache(ttl, maxSize)`. -/
def NewMemoryCache (V : Type) (ttl : Int) (maxSize : Nat) : MemoryCache V :=
  { items := [], ttl := ttl, maxSize := maxSize, stopChan := { closed := false } }

/-- `MemoryCache.Get`, in state-passing form: the first component is the
cache after the call (the method body contains no write), the second is the
Go `(value, found)` pair as an `Option`.  The expiry test is Go's
`time.Now().After(item.expiration)`, i.e. strictly `now > expiration`. -/
def MemoryCache.get {V : Type} (c : MemoryCache V) (key : String) (now : Int) :
    MemoryCache V × Option V :=
  match lookupItem c.items key with
  | none => (c, none)
  | some item => if now > item.expiration then (c, none) else (c, some item.value)

/-- The scan loop of `MemoryCache.evictOldest`, with accumulator
`(oldestKey, oldestTime)` starting at `("", 0)`; `0` plays the role of the
`time.Time` zero value tested by `oldestTime.IsZero()`. -/
def evictScan {V : Type} : List (String × cacheItem V) → String → Int → String × Int
  | [], oldestKey, oldestTime => (oldestKey, oldestTime)
  | (k, it) :: rest, oldestKey, oldestTime =>
    if oldestTime = 0 ∨ it.expiration < oldestTime then evictScan rest k it.expiration
    else evictScan rest oldestKey oldestTime

/-- `MemoryCache.evictOldest`: delete the key selected by the scan, provided
it is not the empty string. -/
def MemoryCache.evictOldest {V : Type} (c : MemoryCache V) : MemoryCache V :=
  let r := evictScan c.items "" 0
  if r.1 ≠ "" then { c with items := eraseItem c.items r.1 } else c

/-- `MemoryCache.Set`: evict when `len(c.items) >= c.maxSize`, then insert
with `expiration = now + ttl`. -/
def MemoryCache.set {V : Type} (c : MemoryCache V) (key : String) (value : V) (now : Int) :
    MemoryCache V :=
  let c' := if c.items.length ≥ c.maxSize then c.evictOldest else c
  { c' with items := insertItem c'.items key { value := value, expiration := now + c'.ttl } }

/-- `MemoryCache.Delete`. -/
def MemoryCache.delete {V : Type} (c : MemoryCache V) (key : String) : MemoryCache V :=
  { c with items := eraseItem c.items key }

/-- `MemoryCache.Clear`. -/
def MemoryCache.clear {V : Type} (c : MemoryCache V) : MemoryCache V :=
  { c with items := [] }

/-- `MemoryCache.Close`: a bare `close(c.stopChan)`. -/
def MemoryCache.close {V : Type} (c : MemoryCache V) : Except String (MemoryCache V) :=
  match chanClose c.stopChan with
  | Except.error msg => Except.error msg
  | Except.ok ch => Except.ok { c with stopChan := ch }

/-- One reaper sweep, `MemoryCache.removeExpired`: delete every entry with
`now.After(item.expiration)`. -/
def MemoryCache.removeExpired {V : Type} (c : MemoryCache V) (now : Int) : MemoryCache V :=
  { c with items := c.items.filter (fun p => !(decide (now > p.2.expiration))) }

/-! ### Association-list lemmas -/

theorem lookupItem_mem {V : Type} {l : List (String × cacheItem V)} {key : String}
    {it : cacheItem V} (h : lookupItem l key = some it) : (key, it) ∈ l := by
  induction l with
  | nil => simp [lookupItem] at h
  | cons p rest ih =>
    obtain ⟨k, old⟩ := p
    by_cases hk : k = key
    · subst hk
      simp [lookupItem] at h
      simp [h]
    · simp [lookupItem, hk] at h
      exact List.mem_cons_of_mem _ (ih h)

theorem mem_lookupItem {V : Type} {l : List (String × cacheItem V)} {key : String}
    {it : cacheItem V} (hnd : (keysOf l).Nodup) (h : (key, it) ∈ l) :
    lookupItem l key = some it := by
  induction l with
  | nil => simp at h
  | cons p rest ih =>
    obtain ⟨k, old⟩ := p
    simp only [keysOf, List.map_cons, List.nodup_cons] at hnd
    rcases List.mem_cons.mp h with h1 | h1
    · rw [Prod.mk.injEq] at h1
      obtain ⟨hk, hit⟩ := h1
      subst hk; subst hit
      simp [lookupItem]
    · have hk : k ≠ key := by
        intro hkk
        subst hkk
        exact hnd.1 (List.mem_map.mpr ⟨(k, it), h1, rfl⟩)
      simp only [lookupItem, hk, if_false]
      exact ih hnd.2 h1

theorem lookupItem_isSome_of_mem_keys {V : Type} {l : List (String × cacheItem V)}
    {key : String} (h : key ∈ keysOf l) : (lookupItem l key).isSome := by
  induction l with
  | nil => simp [keysOf] at h
  | cons p rest ih =>
    obtain ⟨k, old⟩ := p
    by_cases hk : k = key
    · subst hk; simp [lookupItem]
    · simp only [keysOf, List.map_cons, List.mem_cons] at h
      rcases h with h | h
      · exact absurd h.symm hk
      · simp only [lookupItem, hk, if_false]
        exact ih h

theorem eraseItem_length {V : Type} {l : List (String × cacheItem V)} {key : String}
    (h : (lookupItem l key).isSome) : (eraseItem l key).length + 1 = l.length := by
  induction l with
  | nil => simp [lookupItem] at h
  | cons p rest ih =>
    obtain ⟨k, old⟩ := p
    by_cases hk : k = key
    · subst hk; simp [eraseItem]
    · simp only [lookupItem, hk, if_false] at h
      simp only [eraseItem, hk, if_false, List.length_cons]
      rw [← ih h]

theorem insertItem_length_le {V : Type} (l : List (String × cacheItem V)) (key : String)
    (it : cacheItem V) : (insertItem l key it).length ≤ l.length + 1 := by
  induction l with
  | nil => simp [insertItem]
  | cons p rest ih =>
    obtain ⟨k, old⟩ := p
    by_cases hk : k = key
    · simp [insertItem, hk]
    · simp only [insertItem, hk, if_false, List.length_cons]
      omega

theorem keysOf_insertItem_subset {V : Type} {l : List (String × cacheItem V)} {key k' : String}
    {it : cacheItem V} (h : k' ∈ keysOf (insertItem l key it)) : k' ∈ keysOf l ∨ k' = key := by
  induction l with
  | nil =>
    simp [insertItem, keysOf] at h
    exact Or.inr h
  | cons p rest ih =>
    obtain ⟨k, old⟩ := p
    simp only [insertItem] at h
    by_cases hk : k = key
    · rw [if_pos hk] at h
      simp only [keysOf, List.map_cons, List.mem_cons] at h ⊢
      tauto
    · rw [if_neg hk] at h
      simp only [keysOf, List.map_cons, List.mem_cons] at h ⊢
      rcases h with h | h
      · tauto
      · rcases ih h with h1 | h1 <;> tauto

theorem keysOf_eraseItem_subset {V : Type} {l : List (String × cacheItem V)} {key k' : String}
    (h : k' ∈ keysOf (eraseItem l key)) : k' ∈ keysOf l := by
  induction l with
  | nil => simp [eraseItem, keysOf] at h
  | cons p rest ih =>
    obtain ⟨k, old⟩ := p
    by_cases hk : k = key
    · subst hk
      simp only [eraseItem, if_pos rfl] at h
      simp only [keysOf, List.map_cons, List.mem_cons]
      exact Or.inr h
    · simp only [eraseItem, hk, if_false, keysOf, List.map_cons, List.mem_cons] at h ⊢
      rcases h with h | h
      · exact Or.inl h
      · exact Or.inr (ih h)

theorem eraseItem_sublist {V : Type} (l : List (String × cacheItem V)) (key : String) :
    (eraseItem l key).Sublist l := by
  induction l with
  | nil => simp [eraseItem]
  | cons p rest ih =>
    obtain ⟨k, old⟩ := p
    by_cases hk : k = key
    · subst hk
      simp [eraseItem]
    · simp only [eraseItem, hk, if_false]
      exact List.Sublist.cons₂ _ ih

theorem keysOf_eraseItem_nodup {V : Type} {l : List (String × cacheItem V)} {key : String}
    (h : (keysOf l).Nodup) : (keysOf (eraseItem l key)).Nodup :=
  List.Nodup.sublist (List.Sublist.map Prod.fst (eraseItem_sublist l key)) h

theorem keysOf_insertItem_nodup {V : Type} {l : List (String × cacheItem V)} {key : String}
    {it : cacheItem V} (h : (keysOf l).Nodup) : (keysOf (insertItem l key it)).Nodup := by
  induction l with
  | nil => simp [insertItem, keysOf]
  | cons p rest ih =>
    obtain ⟨k, old⟩ := p
    simp only [keysOf, List.map_cons, List.nodup_cons] at h
    simp only [insertItem]
    by_cases hk : k = key
    · rw [if_pos hk]
      simp only [keysOf, List.map_cons, List.nodup_cons]
      subst hk
      exact ⟨h.1, h.2⟩
    · rw [if_neg hk]
      simp only [keysOf, List.map_cons, List.nodup_cons]
      refine ⟨fun hmem => ?_, ih h.2⟩
      rcases keysOf_insertItem_subset hmem with h1 | h1
      · exact h.1 h1
      · exact hk h1

/-! ### Eviction-scan lemmas -/

theorem evictScan_mem {V : Type} :
    ∀ (l : List (String × cacheItem V)) (ok : String) (ot : Int),
      evictScan l ok ot = (ok, ot) ∨ ∃ p ∈ l, evictScan l ok ot = (p.1, p.2.expiration) := by
  intro l
  induction l with
  | nil => intro ok ot; exact Or.inl rfl
  | cons q rest ih =>
    intro ok ot
    obtain ⟨k, it⟩ := q
    simp only [evictScan]
    by_cases hc : ot = 0 ∨ it.expiration < ot
    · rw [if_pos hc]
      rcases ih k it.expiration with h | ⟨p, hp, h⟩
      · exact Or.inr ⟨(k, it), List.mem_cons_self _ _, h⟩
      · exact Or.inr ⟨p, List.mem_cons_of_mem _ hp, h⟩
    · rw [if_neg hc]
      rcases ih ok ot with h | ⟨p, hp, h⟩
      · exact Or.inl h
      · exact Or.inr ⟨p, List.mem_cons_of_mem _ hp, h⟩

theorem evictScan_min {V : Type} :
    ∀ (l : List (String × cacheItem V)) (ok : String) (ot : Int), ot ≠ 0 →
      (∀ p ∈ l, p.2.expiration ≠ 0) →
      (evictScan l ok ot).2 ≤ ot ∧ ∀ p ∈ l, (evictScan l ok ot).2 ≤ p.2.expiration := by
  intro l
  induction l with
  | nil => intro ok ot _ _; exact ⟨le_refl _, by simp⟩
  | cons q rest ih =>
    intro ok ot hot hexp
    obtain ⟨k, it⟩ := q
    have hit : it.expiration ≠ 0 := hexp (k, it) (List.mem_cons_self _ _)
    have hrest : ∀ p ∈ rest, p.2.expiration ≠ 0 :=
      fun p hp => hexp p (List.mem_cons_of_mem _ hp)
    simp only [evictScan]
    by_cases hc : ot = 0 ∨ it.expiration < ot
    · rw [if_pos hc]
      have hlt : it.expiration < ot := hc.resolve_left hot
      obtain ⟨h1, h2⟩ := ih k it.expiration hit hrest
      refine ⟨le_of_lt (lt_of_le_of_lt h1 hlt), ?_⟩
      intro p hp
      rcases List.mem_cons.mp hp with rfl | hp
      · exact h1
      · exact h2 p hp
    · rw [if_neg hc]
      push_neg at hc
      obtain ⟨h1, h2⟩ := ih ok ot hot hrest
      refine ⟨h1, ?_⟩
      intro p hp
      rcases List.mem_cons.mp hp with rfl | hp
      · exact le_trans h1 hc.2
      · exact h2 p hp

theorem evictScan_start {V : Type} (k : String) (it : cacheItem V)
    (rest : List (String × cacheItem V)) :
    evictScan ((k, it) :: rest) "" 0 = evictScan rest k it.expiration := by
  simp [evictScan]

theorem evictScan_result_mem {V : Type} {l : List (String × cacheItem V)} (hne : l ≠ []) :
    ∃ p ∈ l, evictScan l "" 0 = (p.1, p.2.expiration) := by
  cases l with
  | nil => exact absurd rfl hne
  | cons q rest =>
    obtain ⟨k, it⟩ := q
    rw [evictScan_start]
    rcases evictScan_mem rest k it.expiration with h | ⟨p, hp, h⟩
    · exact ⟨(k, it), List.mem_cons_self _ _, h⟩
    · exact ⟨p, List.mem_cons_of_mem _ hp, h⟩

theorem evictOldest_fields {V : Type} (c : MemoryCache V) :
    c.evictOldest.ttl = c.ttl ∧ c.evictOldest.maxSize = c.maxSize ∧
    c.evictOldest.stopChan = c.stopChan := by
  simp only [MemoryCache.evictOldest]
  split <;> exact ⟨rfl, rfl, rfl⟩

theorem evictOldest_length {V : Type} (c : MemoryCache V) (hne : c.items ≠ [])
    (hk : ∀ p ∈ c.items, p.1 ≠ "") :
    c.evictOldest.items.length + 1 = c.items.length ∧
    c.evictOldest.items = eraseItem c.items (evictScan c.items "" 0).1 := by
  obtain ⟨p, hp, hscan⟩ := evictScan_result_mem hne
  have hp1 : p.1 ≠ "" := hk p hp
  have hkey : (evictScan c.items "" 0).1 = p.1 := by rw [hscan]
  have hmem : p.1 ∈ keysOf c.items := List.mem_map.mpr ⟨p, hp, rfl⟩
  have hsome : (lookupItem c.items p.1).isSome := lookupItem_isSome_of_mem_keys hmem
  have hbranch : c.evictOldest = { c with items := eraseItem c.items (evictScan c.items "" 0).1 } := by
    simp only [MemoryCache.evictOldest]
    rw [if_pos]
    rw [hkey]
    exact hp1
  constructor
  · rw [hbranch]
    simp only []
    rw [hkey]
    exact eraseItem_length hsome
  · rw [hbranch]

/-- The minimal-expiry eviction contract of `evictOldest`, under the
well-formedness that the running program maintains: nonempty non-`""` keys,
expirations distinct from the `time.Time` zero value, distinct keys. -/
theorem evictOldest_spec {V : Type} (c : MemoryCache V) (hne : c.items ≠ [])
    (hk : ∀ p ∈ c.items, p.1 ≠ "") (hz : ∀ p ∈ c.items, p.2.expiration ≠ 0)
    (hnd : (keysOf c.items).Nodup) :
    ∃ ek eit, lookupItem c.items ek = some eit ∧
      c.evictOldest.items = eraseItem c.items ek ∧
      (∀ p ∈ c.items, eit.expiration ≤ p.2.expiration) ∧
      c.evictOldest.items.length + 1 = c.items.length := by
  obtain ⟨hlen, herase⟩ := evictOldest_length c hne hk
  obtain ⟨p, hp, hscan⟩ := evictScan_result_mem hne
  have hmin : ∀ q ∈ c.items, (evictScan c.items "" 0).2 ≤ q.2.expiration := by
    cases hl : c.items with
    | nil => rw [hl] at hne; exact absurd rfl hne
    | cons q0 rest =>
      obtain ⟨k, it⟩ := q0
      have hit : it.expiration ≠ 0 := by
        refine hz (k, it) ?_
        rw [hl]; exact List.mem_cons_self _ _
      have hrest : ∀ q ∈ rest, q.2.expiration ≠ 0 := by
        intro q hq
        refine hz q ?_
        rw [hl]; exact List.mem_cons_of_mem _ hq
      obtain ⟨h1, h2⟩ := evictScan_min rest k it.expiration hit hrest
      rw [evictScan_start]
      intro q hq
      rcases List.mem_cons.mp hq with rfl | hq
      · exact h1
      · exact h2 q hq
  refine ⟨p.1, p.2, mem_lookupItem hnd (by obtain ⟨a, b⟩ := p; exact hp), ?_, ?_, hlen⟩
  · rw [herase, hscan]
  · intro q hq
    have := hmin q hq
    rw [hscan] at this
    exact this

/-! ### Call traces over the cache (for the capacity invariant) -/

/-- One external cache call. -/
inductive CacheOp (V : Type) where
  | set (key : String) (value : V) (now : Int)
  | delete (key : String)
  | clear
deriving DecidableEq, Repr

/-- Apply one call. -/
def applyOp {V : Type} (c : MemoryCache V) : CacheOp V → MemoryCache V
  | CacheOp.set key v now => c.set key v now
  | CacheOp.delete key => c.delete key
  | CacheOp.clear => c.clear

/-- Run a sequence of calls left to right. -/
def runOps {V : Type} (c : MemoryCache V) : List (CacheOp V) → MemoryCache V
  | [] => c
  | op :: rest => runOps (applyOp c op) rest

/-- The keys the service ever passes are nonempty (`"block_reward:…"`,
`"sync_duties:…"`). -/
def opKeyNonempty {V : Type} : CacheOp V → Prop
  | CacheOp.set key _ _ => key ≠ ""
  | CacheOp.delete _ => True
  | CacheOp.clear => True

/-- Structural cache well-formedness maintained across calls. -/
def CacheInv {V : Type} (c : MemoryCache V) : Prop :=
  (keysOf c.items).Nodup ∧ (∀ k ∈ keysOf c.items, k ≠ "") ∧ c.items.length ≤ c.maxSize

theorem set_eq_of_lt {V : Type} (c : MemoryCache V) (key : String) (v : V) (now : Int)
    (h : c.items.length < c.maxSize) :
    c.set key v now =
      { c with items := insertItem c.items key { value := v, expiration := now + c.ttl } } := by
  simp only [MemoryCache.set]
  rw [if_neg (not_le.mpr h)]

theorem set_eq_of_ge {V : Type} (c : MemoryCache V) (key : String) (v : V) (now : Int)
    (h : c.items.length ≥ c.maxSize) :
    c.set key v now =
      { c.evictOldest with
        items := insertItem c.evictOldest.items key { value := v, expiration := now + c.ttl } } := by
  simp only [MemoryCache.set]
  rw [if_pos h, (evictOldest_fields c).1]

theorem applyOp_maxSize {V : Type} (c : MemoryCache V) (op : CacheOp V) :
    (applyOp c op).maxSize = c.maxSize := by
  cases op with
  | set key v now =>
    simp only [applyOp, MemoryCache.set]
    split
    · exact (evictOldest_fields c).2.1
    · rfl
  | delete key => rfl
  | clear => rfl

theorem applyOp_inv {V : Type} (c : MemoryCache V) (op : CacheOp V) (hm : 1 ≤ c.maxSize)
    (hop : opKeyNonempty op) (hinv : CacheInv c) : CacheInv (applyOp c op) := by
  obtain ⟨hnd, hks, hlen⟩ := hinv
  cases op with
  | set key v now =>
    have hkey : key ≠ "" := hop
    by_cases hc : c.items.length ≥ c.maxSize
    · have hne : c.items ≠ [] := by
        have : 0 < c.items.length := lt_of_lt_of_le hm hc
        exact List.ne_nil_of_length_pos this
      have hpk : ∀ p ∈ c.items, p.1 ≠ "" :=
        fun p hp => hks p.1 (List.mem_map.mpr ⟨p, hp, rfl⟩)
      obtain ⟨helen, herase⟩ := evictOldest_length c hne hpk
      have hend : (keysOf c.evictOldest.items).Nodup := by
        rw [herase]; exact keysOf_eraseItem_nodup hnd
      show CacheInv (c.set key v now)
      rw [set_eq_of_ge c key v now hc]
      refine ⟨keysOf_insertItem_nodup hend, ?_, ?_⟩
      · intro k hkmem
        rcases keysOf_insertItem_subset hkmem with h1 | h1
        · rw [herase] at h1
          exact hks k (keysOf_eraseItem_subset h1)
        · rw [h1]; exact hkey
      · show (insertItem c.evictOldest.items key _).length ≤ c.evictOldest.maxSize
        rw [(evictOldest_fields c).2.1]
        calc (insertItem c.evictOldest.items key _).length
            ≤ c.evictOldest.items.length + 1 := insertItem_length_le _ _ _
          _ = c.items.length := helen
          _ ≤ c.maxSize := hlen
    · have hlt : c.items.length < c.maxSize := lt_of_not_le hc
      show CacheInv (c.set key v now)
      rw [set_eq_of_lt c key v now hlt]
      refine ⟨keysOf_insertItem_nodup hnd, ?_, ?_⟩
      · intro k hkmem
        rcases keysOf_insertItem_subset hkmem with h1 | h1
        · exact hks k h1
        · rw [h1]; exact hkey
      · calc (insertItem c.items key _).length
            ≤ c.items.length + 1 := insertItem_length_le _ _ _
          _ ≤ c.maxSize := hlt
  | delete key =>
    refine ⟨keysOf_eraseItem_nodup hnd, ?_, ?_⟩
    · intro k hkmem
      exact hks k (keysOf_eraseItem_subset hkmem)
    · exact le_trans (eraseItem_sublist c.items key).length_le hlen
  | clear =>
    exact ⟨by simp [applyOp, MemoryCache.clear, keysOf],
      by simp [applyOp, MemoryCache.clear, keysOf], by simp [applyOp, MemoryCache.clear]⟩

theorem runOps_inv {V : Type} :
    ∀ (ops : List (CacheOp V)) (c : MemoryCache V), 1 ≤ c.maxSize →
      (∀ op ∈ ops, opKeyNonempty op) → CacheInv c →
      CacheInv (runOps c ops) ∧ (runOps c ops).maxSize = c.maxSize := by
  intro ops
  induction ops with
  | nil => intro c _ _ hinv; exact ⟨hinv, rfl⟩
  | cons op rest ih =>
    intro c hm hops hinv
    have hop : opKeyNonempty op := hops op (List.mem_cons_self _ _)
    have hrest : ∀ o ∈ rest, opKeyNonempty o := fun o ho => hops o (List.mem_cons_of_mem _ ho)
    have hm' : 1 ≤ (applyOp c op).maxSize := by rw [applyOp_maxSize]; exact hm
    obtain ⟨h1, h2⟩ := ih (applyOp c op) hm' hrest (applyOp_inv c op hm hop hinv)
    exact ⟨h1, by rw [runOps, h2, applyOp_maxSize]⟩

/-! ## Claims C1, C2, C3, C10 -/

/-- A concrete one-entry cache used to evaluate the cache theorems. -/
def c1cache : MemoryCache Nat :=
  { items := [("k", { value := 7, expiration := 5 })], ttl := 10, maxSize := 100,
    stopChan := { closed := false } }

/-- C1 counterexample: the claim says an entry is never returned once
`now ≥ expiresAt`, but `Get` uses the strict test `time.Now().After`, so at
`now = expiresAt` exactly the entry is still returned with `found = true`. -/
theorem c1_counterexample :
    lookupItem c1cache.items "k" = some { value := 7, expiration := 5 } ∧
    (c1cache.get "k" 5).2 = some 7 := by decide

/-- C1 (amended): with distinct keys, `Get` reports `found = false` exactly
when the key is absent or `now` is strictly after the entry's `expiresAt`,
and reports a value exactly when the key's entry is unexpired
(`now ≤ expiresAt`); at `now = expiresAt` the entry is still returned. -/
theorem c1_get_expiry_characterization {V : Type} (c : MemoryCache V) (key : String)
    (now : Int) (hnd : (keysOf c.items).Nodup) :
    ((c.get key now).2 = none ↔
      (∀ it : cacheItem V, (key, it) ∉ c.items) ∨
      ∃ it : cacheItem V, (key, it) ∈ c.items ∧ now > it.expiration) ∧
    ∀ v : V, (c.get key now).2 = some v ↔
      ∃ it : cacheItem V, (key, it) ∈ c.items ∧ it.value = v ∧ now ≤ it.expiration := by
  cases h : lookupItem c.items key with
  | none =>
    have habs : ∀ it : cacheItem V, (key, it) ∉ c.items := by
      intro it hmem
      have := mem_lookupItem hnd hmem
      rw [h] at this
      exact Option.noConfusion this
    constructor
    · constructor
      · intro _; exact Or.inl habs
      · intro _; simp [MemoryCache.get, h]
    · intro v
      constructor
      · intro hv; simp [MemoryCache.get, h] at hv
      · rintro ⟨it, hmem, _, _⟩; exact absurd hmem (habs it)
  | some it =>
    have hmem : (key, it) ∈ c.items := lookupItem_mem h
    have huniq : ∀ it' : cacheItem V, (key, it') ∈ c.items → it' = it := by
      intro it' hmem'
      have := mem_lookupItem hnd hmem'
      rw [h] at this
      exact (Option.some.injEq _ _ ▸ this).symm ▸ rfl
    by_cases hex : now > it.expiration
    · constructor
      · constructor
        · intro _; exact Or.inr ⟨it, hmem, hex⟩
        · intro _; simp [MemoryCache.get, h, hex]
      · intro v
        constructor
        · intro hv; simp [MemoryCache.get, h, hex] at hv
        · rintro ⟨it', hmem', _, hle⟩
          have := huniq it' hmem'
          subst this
          exact absurd hex (not_lt.mpr hle)
    · constructor
      · constructor
        · intro hnone; simp [MemoryCache.get, h, hex] at hnone
        · rintro (habs | ⟨it', hmem', hex'⟩)
          · exact absurd hmem (habs it)
          · have := huniq it' hmem'
            subst this
            exact absurd hex' hex
      · intro v
        constructor
        · intro hv
          simp [MemoryCache.get, h, hex] at hv
          exact ⟨it, hmem, hv, not_lt.mp hex⟩
        · rintro ⟨it', hmem', hval, _⟩
          have := huniq it' hmem'
          subst this
          simp [MemoryCache.get, h, hex, hval]

/-- C1 witness: evaluating the amended characterization on a concrete cache,
one tick after expiry. -/
theorem c1_witness : (c1cache.get "k" 6).2 = none := by
  have h := c1_get_expiry_characterization c1cache "k" 6 (by decide)
  exact h.1.mpr (Or.inr ⟨{ value := 7, expiration := 5 }, by decide, by decide⟩)

/-- The cache state `Set("a",…); Set("b",…)` at `maxSize = 2`, holding both
unexpired entries. -/
def c2state : MemoryCache Nat := ((NewMemoryCache Nat 100 2).set "a" 1 0).set "b" 2 1

/-- C2 counterexample: overwriting the already-present key `"b"` when the
cache is at capacity still evicts the unexpired entry `"a"`, because `Set`
tests `len(items) >= maxSize` before looking at the key. -/
theorem c2_counterexample :
    lookupItem c2state.items "a" = some { value := 1, expiration := 100 } ∧
    lookupItem c2state.items "b" = some { value := 2, expiration := 101 } ∧
    lookupItem (c2state.set "b" 3 2).items "a" = none := by decide

/-- C2 (amended): `Set` evicts exactly one entry — one with the earliest
`expiresAt` — whenever the current entry count is at least `maxSize`, even
when the key being written is already present; below capacity it evicts
nothing; and with `maxSize = 1`, `Set("a",…)` then `Set("b",…)` leaves only
`"b"` retrievable. -/
theorem c2_set_eviction :
    (∀ (V : Type) (c : MemoryCache V) (key : String) (v : V) (now : Int),
      c.items.length < c.maxSize →
      (c.set key v now).items =
        insertItem c.items key { value := v, expiration := now + c.ttl }) ∧
    (∀ (V : Type) (c : MemoryCache V) (key : String) (v : V) (now : Int),
      c.items.length ≥ c.maxSize →
      (c.set key v now).items =
        insertItem c.evictOldest.items key { value := v, expiration := now + c.ttl }) ∧
    (∀ (V : Type) (c : MemoryCache V), c.items ≠ [] →
      (∀ p ∈ c.items, p.1 ≠ "") → (∀ p ∈ c.items, p.2.expiration ≠ 0) →
      (keysOf c.items).Nodup →
      ∃ ek eit, lookupItem c.items ek = some eit ∧
        c.evictOldest.items = eraseItem c.items ek ∧
        (∀ p ∈ c.items, eit.expiration ≤ p.2.expiration) ∧
        c.evictOldest.items.length + 1 = c.items.length) ∧
    ((((NewMemoryCache Nat 100 1).set "a" 1 0).set "b" 2 1).get "b" 2).2 = some 2 ∧
    ((((NewMemoryCache Nat 100 1).set "a" 1 0).set "b" 2 1).get "a" 2).2 = none ∧
    (((NewMemoryCache Nat 100 1).set "a" 1 0).set "b" 2 1).items.length = 1 := by
  refine ⟨?_, ?_, ?_, by decide, by decide, by decide⟩
  · intro V c key v now h
    rw [set_eq_of_lt c key v now h]
  · intro V c key v now h
    rw [set_eq_of_ge c key v now h]
  · intro V c hne hk hz hnd
    exact evictOldest_spec c hne hk hz hnd

/-- C2 witness: the at-capacity branch of the amended claim, evaluated on the
concrete two-entry cache. -/
theorem c2_witness :
    (c2state.set "b" 3 2).items =
      insertItem c2state.evictOldest.items "b" { value := 3, expiration := 2 + c2state.ttl } :=
  c2_set_eviction.2.1 Nat c2state "b" 3 2 (by decide)

/-- C3 counterexample: with `maxSize = 0` (allowed by the claim's
"maxSize ≥ 0"), a single `Set` leaves one entry, violating
`|entries| ≤ maxSize`: `evictOldest` on an empty map deletes nothing and the
insert still happens. -/
theorem c3_counterexample :
    ¬ ((runOps (NewMemoryCache Nat 10 0) [CacheOp.set "a" 1 0]).items.length ≤
        (NewMemoryCache Nat 10 0).maxSize) := by decide

/-- C3 (amended): for every `maxSize ≥ 1` and every finite sequence of
`Set` (with nonempty keys, as the service always uses) / `Delete` / `Clear`
calls from a fresh cache, `|entries| ≤ maxSize` after each call. -/
theorem c3_capacity_invariant (V : Type) (ttl : Int) (maxSize : Nat) (hm : 1 ≤ maxSize)
    (ops : List (CacheOp V)) (hops : ∀ op ∈ ops, opKeyNonempty op)
    (pre : List (CacheOp V)) (hpre : pre <+: ops) :
    (runOps (NewMemoryCache V ttl maxSize) pre).items.length ≤ maxSize := by
  have hinv0 : CacheInv (NewMemoryCache V ttl maxSize) :=
    ⟨by simp [NewMemoryCache, keysOf], by simp [NewMemoryCache, keysOf],
      by simp [NewMemoryCache]⟩
  have hpres : ∀ op ∈ pre, opKeyNonempty op :=
    fun op hop => hops op (hpre.sublist.subset hop)
  obtain ⟨hinv, hms⟩ := runOps_inv pre (NewMemoryCache V ttl maxSize) hm hpres hinv0
  have hlen := hinv.2.2
  rw [hms] at hlen
  exact hlen

/-- C3 witness: a three-call trace at `maxSize = 1` stays within capacity. -/
theorem c3_witness :
    (runOps (NewMemoryCache Nat 10 1)
      [CacheOp.set "a" 1 0, CacheOp.set "b" 2 1, CacheOp.set "c" 3 2]).items.length ≤ 1 := by
  refine c3_capacity_invariant Nat 10 1 (by decide) _ ?_ _ (List.prefix_refl _)
  intro op hop
  simp only [List.mem_cons, List.not_mem_nil, or_false] at hop
  rcases hop with rfl | rfl | rfl <;> (intro h; exact absurd h (by decide))

/-- C10: `Get` never mutates the cache: the state after a call is the state
before it (entry map, ttl, maxSize and all); an expired entry is reported as
absent yet still present in the map after the call; a reaper sweep
(`removeExpired`) leaves only unexpired entries behind. -/
theorem c10_get_frame {V : Type} (c : MemoryCache V) (key : String) (now : Int) :
    (c.get key now).1 = c ∧
    (∀ it : cacheItem V, lookupItem c.items key = some it → now > it.expiration →
      (c.get key now).2 = none ∧ lookupItem ((c.get key now).1).items key = some it) ∧
    ∀ p ∈ (c.removeExpired now).items, now ≤ p.2.expiration := by
  have hfst : (c.get key now).1 = c := by
    cases h : lookupItem c.items key with
    | none => simp [MemoryCache.get, h]
    | some it =>
      by_cases hex : now > it.expiration <;> simp [MemoryCache.get, h, hex]
  refine ⟨hfst, ?_, ?_⟩
  · intro it hit hexp
    refine ⟨by simp [MemoryCache.get, hit, hexp], ?_⟩
    rw [hfst]
    exact hit
  · intro p hp
    simp only [MemoryCache.removeExpired, List.mem_filter, Bool.not_eq_true',
      decide_eq_false_iff_not, not_lt] at hp
    exact hp.2

/-- C10 witness: on the concrete cache, reading the expired key at `now = 9`
returns nothing, leaves the state untouched, and the entry is still there. -/
theorem c10_witness :
    (c1cache.get "k" 9).1 = c1cache ∧ (c1cache.get "k" 9).2 = none ∧
    lookupItem ((c1cache.get "k" 9).1).items "k" = some { value := 7, expiration := 5 } := by
  have h := c10_get_frame c1cache "k" 9
  have h2 := h.2.1 { value := 7, expiration := 5 } (by decide) (by decide)
  exact ⟨h.1, h2.1, h2.2⟩

/-! ## Error taxonomy (`pkg/errors/errors.go`) -/

/-- Go error values reachable in the service paths: the sentinel errors of
`pkg/errors`, RPC/validation payloads reduced to their message, plain
`fmt.Errorf` errors, and `fmt.Errorf("...: \x25w", err)` wrapping. -/
inductive GoErr where
  | slotNotFound
  | futureSlot
  | slotTooFarInFuture
  | invalidSlot
  | rpcConnection
  | timeout
  | internal
  | basic (msg : String)
  | wrap (msg : String) (cause : GoErr)
deriving DecidableEq, Repr

/-- `errors.Is(err, target)`: direct equality, else unwrap and recurse
(`fmt.Errorf` with `\x25w` exposes `Unwrap`). -/
def errorsIs : GoErr → GoErr → Bool
  | GoErr.wrap msg cause, target =>
    decide (GoErr.wrap msg cause = target) || errorsIs cause target
  | e, target => decide (e = target)

/-- `errors.IsNotFound`: `errors.Is(err, ErrSlotNotFound)`. -/
def IsNotFound (e : GoErr) : Bool := errorsIs e GoErr.slotNotFound

/-! ## Beacon-chain payloads (`pkg/ethereum/client.go` types) -/

/-- `ethereum.ExecutionPayload`. -/
structure ExecutionPayload where
  feeRecipient : String
  blockHash : String
  transactions : List String
  baseFeePerGas : String
  gasUsed : String
  blockNumber : String
deriving DecidableEq, Repr

/-- `ethereum.SyncAggregate`. -/
structure SyncAggregate where
  syncCommitteeBits : String
  syncCommitteeSignature : String
deriving DecidableEq, Repr

/-- `ethereum.BlockBody`. -/
structure BlockBody where
  executionPayload : Option ExecutionPayload
  syncAggregate : Option SyncAggregate
deriving DecidableEq, Repr

/-- `ethereum.BlockMessage`. -/
structure BlockMessage where
  slot : String
  proposerIndex : String
  parentRoot : String
  stateRoot : String
  body : BlockBody
deriving DecidableEq, Repr

/-- `ethereum.BeaconBlockData`. -/
structure BeaconBlockData where
  message : BlockMessage
  signature : String
deriving DecidableEq, Repr

/-- `ethereum.BeaconBlock`. -/
structure BeaconBlock where
  version : String
  data : BeaconBlockData
deriving DecidableEq, Repr

/-- `ethereum.BlockRewards`. -/
structure BlockRewards where
  proposerIndex : String
  total : String
  attestations : String
  syncAggregate : String
  proposerSlashings : String
  attesterSlashings : String
deriving DecidableEq, Repr

/-! ## Domain results (`internal/domain`) -/

/-- `domain.BlockReward`: classification status and the `big.Int` reward. -/
structure BlockReward where
  status : String
  reward : Int
deriving DecidableEq, Repr

/-- `domain.SyncCommitteeDuties`. -/
structure SyncCommitteeDuties where
  validators : List String
deriving DecidableEq, Repr

/-! ## Classification (`validatorService.determineBlockStatus`) -/

/-- Go `strings.HasPrefix`, at character level (all inputs in scope are
ASCII, where Go's byte-wise test coincides). -/
def goHasPrefix (s p : String) : Bool := p.data.isPrefixOf s.data

/-- Go `strings.ToLower`, at character level. -/
def goToLower (s : String) : String := String.mk (s.data.map Char.toLower)

/-- The fixed known-MEV transaction selector patterns of
`isMEVTransaction`. -/
def mevPatterns : List String := ["0xa22cb465", "0x095ea7b3", "0x23b872dd"]

/-- The fixed known-MEV relay fee-recipient addresses of
`determineBlockStatus`. -/
def knownMEVRelays : List String :=
  ["0x95222290dd7278aa3ddd389cc1e1d165cc4bafe5",
   "0x388c818ca8b9251b393131c08a736a67ccb19297",
   "0x8b5d7a6055e54e36e8a6e2a128c5d0f38f4e5e83"]

/-- `validatorService.isMEVTransaction`. -/
def isMEVTransaction (txHex : String) : Bool :=
  if txHex.length < 10 then false
  else mevPatterns.any (fun pattern => goHasPrefix txHex pattern)

/-- `validatorService.determineBlockStatus`. -/
def determineBlockStatus (block : BeaconBlock) : String :=
  match block.data.message.body.executionPayload with
  | none => "vanilla"
  | some payload =>
    if payload.transactions.length = 0 then "vanilla"
    else if payload.transactions.any isMEVTransaction then "mev"
    else if knownMEVRelays.contains (goToLower payload.feeRecipient) then "mev"
    else "vanilla"

/-! ## Reward parsing (`validatorService.parseReward`) -/

/-- Decimal value of a digit string. -/
def decDigitsValue (ds : List Char) : Nat :=
  ds.foldl (fun acc c => 10 * acc + (c.toNat - 48)) 0

/-- The digit phase of `big.Int.SetString` base 10: one or more ASCII
decimal digits, consuming everything. -/
def decDigits (ds : List Char) : Option Nat :=
  if ds = [] then none
  else if ds.all Char.isDigit then some (decDigitsValue ds) else none

/-- Modelled from the Go standard library (`math/big`, not part of this
repository): `new(big.Int).SetString(s, 10)` accepts an optional leading
`+`/`-` sign followed by one or more ASCII decimal digits — the whole
string must be consumed, underscores are only allowed at base 0 — and
returns the exact signed arbitrary-precision value. -/
def bigIntSetString10core : List Char → Option Int
  | [] => none
  | c :: rest =>
    if c = '+' then (decDigits rest).map (fun n => Int.ofNat n)
    else if c = '-' then (decDigits rest).map (fun n => -(Int.ofNat n))
    else (decDigits (c :: rest)).map (fun n => Int.ofNat n)

/-- The scanner above, applied to the string's characters. -/
def bigIntSetString10 (s : String) : Option Int := bigIntSetString10core s.data

/-- `validatorService.parseReward`. -/
def parseReward (rewardStr : String) : Except GoErr Int :=
  match bigIntSetString10 rewardStr with
  | none => Except.error (GoErr.basic ("invalid reward format: " ++ rewardStr))
  | some reward => Except.ok reward

/-! ## Slot arithmetic (`validator.go` helpers, `client.GetSyncCommittee`) -/

/-- `slotToEpoch`. -/
def slotToEpoch (slot : Nat) : Nat := slot / 32

/-- `epochToSyncCommitteePeriod`. -/
def epochToSyncCommitteePeriod (epoch : Nat) : Nat := epoch / 256

/-- `syncCommitteePeriodToSlot`. -/
def syncCommitteePeriodToSlot (period : Nat) : Nat := period * 256 * 32

/-- `client.GetSyncCommittee`, with the beacon request
`states/{stateID}/sync_committees` abstracted as `fetchState`, applied to
the computed `stateID`. -/
def GetSyncCommittee (fetchState : Nat → Except GoErr (List String)) (slot : Nat) :
    Except GoErr (List String) :=
  let epoch := slot / 32
  let syncCommitteePeriod := epoch / 256
  fetchState (syncCommitteePeriod * 256 * 32)

/-! ## Resolution service (`internal/service/validator.go`) -/

/-- `2^64`; `uint64` arithmetic wraps modulo this. -/
def UINT64_MOD : Nat := 2 ^ 64

/-- A value stored in the service's untyped cache. -/
inductive CacheVal where
  | reward (r : BlockReward)
  | duties (d : SyncCommitteeDuties)
deriving DecidableEq, Repr

/-- Outcome of a service call: Go's `(value, error)` pair, or a runtime
panic (the failed type assertion on a cache hit of the wrong type). -/
inductive SvcRes (α : Type) where
  | ok (value : α)
  | err (e : GoErr)
  | panicked (msg : String)
deriving DecidableEq, Repr

/-- The beacon-node collaborator (`ethereum.Client`) as a record of the
responses it would give; a nil/missing cache is the constantly-`none`
lookup. -/
structure EthResponses where
  currentSlot : Except GoErr Nat
  block : Nat → Except GoErr BeaconBlock
  blockRewards : Nat → Except GoErr BlockRewards
  syncCommittee : Nat → Except GoErr (List String)

/-- `validatorService.GetBlockReward`, on the collaborator responses `env`
and the cache read `cacheGet` (the cache-fill write does not affect the
returned value and is omitted from the result). -/
def getBlockReward (env : EthResponses) (cacheGet : String → Option CacheVal) (slot : Nat) :
    SvcRes BlockReward :=
  match cacheGet ("block_reward:" ++ toString slot) with
  | some (CacheVal.reward r) => SvcRes.ok r
  | some _ => SvcRes.panicked "interface conversion"
  | none =>
    match env.currentSlot with
    | Except.error e => SvcRes.err (GoErr.wrap "failed to get current slot" e)
    | Except.ok currentSlot =>
      if slot > currentSlot then SvcRes.err GoErr.futureSlot
      else
        match env.block slot with
        | Except.error e =>
          if IsNotFound e then SvcRes.err GoErr.slotNotFound
          else SvcRes.err (GoErr.wrap "failed to get block" e)
        | Except.ok block =>
          match env.blockRewards slot with
          | Except.error e => SvcRes.err (GoErr.wrap "failed to get block rewards" e)
          | Except.ok rewards =>
            match parseReward rewards.total with
            | Except.error e => SvcRes.err (GoErr.wrap "failed to parse reward" e)
            | Except.ok totalReward =>
              SvcRes.ok { status := determineBlockStatus block, reward := totalReward }

/-- `validatorService.GetSyncCommitteeDuties`; the bound test
`slot > currentSlot+32*256` is `uint64` addition, hence modulo `2^64`. -/
def getSyncCommitteeDuties (env : EthResponses) (cacheGet : String → Option CacheVal)
    (slot : Nat) : SvcRes SyncCommitteeDuties :=
  match cacheGet ("sync_duties:" ++ toString slot) with
  | some (CacheVal.duties d) => SvcRes.ok d
  | some _ => SvcRes.panicked "interface conversion"
  | none =>
    match env.currentSlot with
    | Except.error e => SvcRes.err (GoErr.wrap "failed to get current slot" e)
    | Except.ok currentSlot =>
      if slot > (currentSlot + 32 * 256) % UINT64_MOD then SvcRes.err GoErr.slotTooFarInFuture
      else
        match env.syncCommittee slot with
        | Except.error e =>
          if IsNotFound e then SvcRes.err GoErr.slotNotFound
          else SvcRes.err (GoErr.wrap "failed to get sync committee" e)
        | Except.ok validators => SvcRes.ok { validators := validators }

/-! ## Claim C5 -/

theorem mevPatterns_length : ∀ pat ∈ mevPatterns, pat.data.length = 10 := by decide

/-- A transaction triggers the selector heuristic exactly when its leading
ten characters (`0x` plus four selector bytes in hex) are one of the fixed
patterns; the explicit `len < 10` guard in the source is redundant with the
prefix test. -/
theorem isMEVTransaction_iff (tx : String) :
    isMEVTransaction tx = true ↔ ∃ pat ∈ mevPatterns, tx.data.take 10 = pat.data := by
  constructor
  · intro h
    simp only [isMEVTransaction] at h
    by_cases hlen : tx.length < 10
    · rw [if_pos hlen] at h
      exact absurd h (by simp)
    · rw [if_neg hlen] at h
      obtain ⟨pat, hp, hpre⟩ := List.any_eq_true.mp h
      have h1 : pat.data <+: tx.data := by
        simpa [goHasPrefix] using hpre
      refine ⟨pat, hp, ?_⟩
      have h2 := List.prefix_iff_eq_take.mp h1
      rw [mevPatterns_length pat hp] at h2
      exact h2.symm
  · rintro ⟨pat, hp, htake⟩
    have hlen10 : pat.data.length = 10 := mevPatterns_length pat hp
    have htxlen : 10 ≤ tx.data.length := by
      have h1 : (tx.data.take 10).length = pat.data.length := by rw [htake]
      rw [List.length_take, hlen10] at h1
      omega
    simp only [isMEVTransaction]
    have hnot : ¬ tx.length < 10 := by
      simp only [String.length]
      omega
    rw [if_neg hnot]
    refine List.any_eq_true.mpr ⟨pat, hp, ?_⟩
    simp only [goHasPrefix, List.isPrefixOf_iff_prefix]
    rw [List.prefix_iff_eq_take, hlen10]
    exact htake.symm

/-- C5: classification returns `"vanilla"` when there is no execution
payload or no transactions; otherwise `"mev"` when some transaction's
leading 4-byte selector is among the fixed patterns, else `"mev"` when the
lower-cased fee recipient is one of the fixed relay addresses (which
include `0x95222290dd7278aa3ddd389cc1e1d165cc4bafe5` and are themselves
lower-case, so the comparison is case-insensitive), and `"vanilla"`
otherwise; the result is always one of exactly these two strings. -/
theorem c5_block_status_classification (block : BeaconBlock) :
    (block.data.message.body.executionPayload = none →
      determineBlockStatus block = "vanilla") ∧
    (∀ payload : ExecutionPayload,
      block.data.message.body.executionPayload = some payload →
      (payload.transactions = [] → determineBlockStatus block = "vanilla") ∧
      ((∃ tx ∈ payload.transactions, ∃ pat ∈ mevPatterns, tx.data.take 10 = pat.data) →
        determineBlockStatus block = "mev") ∧
      (payload.transactions ≠ [] →
        (¬ ∃ tx ∈ payload.transactions, ∃ pat ∈ mevPatterns, tx.data.take 10 = pat.data) →
        goToLower payload.feeRecipient ∈ knownMEVRelays →
        determineBlockStatus block = "mev") ∧
      ((¬ ∃ tx ∈ payload.transactions, ∃ pat ∈ mevPatterns, tx.data.take 10 = pat.data) →
        goToLower payload.feeRecipient ∉ knownMEVRelays →
        determineBlockStatus block = "vanilla")) ∧
    (determineBlockStatus block = "mev" ∨ determineBlockStatus block = "vanilla") ∧
    "0x95222290dd7278aa3ddd389cc1e1d165cc4bafe5" ∈ knownMEVRelays ∧
    (∀ relay ∈ knownMEVRelays, goToLower relay = relay) := by
  refine ⟨?_, ?_, ?_, by decide, by decide⟩
  · intro h
    simp [determineBlockStatus, h]
  · intro payload hp
    have hanyiff : payload.transactions.any isMEVTransaction = true ↔
        ∃ tx ∈ payload.transactions, ∃ pat ∈ mevPatterns, tx.data.take 10 = pat.data := by
      rw [List.any_eq_true]
      constructor
      · rintro ⟨tx, htx, hmev⟩
        exact ⟨tx, htx, (isMEVTransaction_iff tx).mp hmev⟩
      · rintro ⟨tx, htx, hsel⟩
        exact ⟨tx, htx, (isMEVTransaction_iff tx).mpr hsel⟩
    refine ⟨?_, ?_, ?_, ?_⟩
    · intro htx
      simp [determineBlockStatus, hp, htx]
    · intro hex
      have hne : payload.transactions ≠ [] := by
        obtain ⟨tx, htx, _⟩ := hex
        exact List.ne_nil_of_mem htx
      have hlen : ¬ payload.transactions.length = 0 := by
        simpa [List.length_eq_zero] using hne
      have hany := hanyiff.mpr hex
      simp [determineBlockStatus, hp, hlen, hany]
    · intro hne hnex hfee
      have hlen : ¬ payload.transactions.length = 0 := by
        simpa [List.length_eq_zero] using hne
      have hany : payload.transactions.any isMEVTransaction = false := by
        rw [Bool.eq_false_iff]
        intro hcontra
        exact hnex (hanyiff.mp hcontra)
      simp [determineBlockStatus, hp, hlen, hany, hfee]
    · intro hnex hfee
      by_cases hlen : payload.transactions.length = 0
      · simp [determineBlockStatus, hp, hlen]
      · have hany : payload.transactions.any isMEVTransaction = false := by
          rw [Bool.eq_false_iff]
          intro hcontra
          exact hnex (hanyiff.mp hcontra)
        simp [determineBlockStatus, hp, hlen, hany, hfee]
  · cases h : block.data.message.body.executionPayload with
    | none => simp [determineBlockStatus, h]
    | some payload =>
      simp only [determineBlockStatus, h]
      split
      · exact Or.inr rfl
      · split
        · exact Or.inl rfl
        · split
          · exact Or.inl rfl
          · exact Or.inr rfl

/-- The execution payload of the concrete test block: one transaction with
the `0xa22cb465` selector, a non-relay fee recipient. -/
def mevPayload : ExecutionPayload :=
  { feeRecipient := "0x0000000000000000000000000000000000000000",
    blockHash := "0xdead", transactions := ["0xa22cb465ffffffff"],
    baseFeePerGas := "7", gasUsed := "21000", blockNumber := "1" }

/-- A concrete beacon block carrying `mevPayload`. -/
def mevTxBlock : BeaconBlock :=
  { version := "capella",
    data := { message := { slot := "12345", proposerIndex := "1", parentRoot := "0x01",
                           stateRoot := "0x02",
                           body := { executionPayload := some mevPayload,
                                     syncAggregate := none } },
              signature := "0xsig" } }

/-- C5 witness: the concrete block with an `0xa22cb465`-selector transaction
classifies `"mev"`. -/
theorem c5_witness : determineBlockStatus mevTxBlock = "mev" :=
  ((c5_block_status_classification mevTxBlock).2.1 mevPayload rfl).2.1 (by decide)

/-! ## Claim C6 -/

theorem decDigits_eq_some {ds : List Char} {n : Nat} :
    decDigits ds = some n ↔
      ds ≠ [] ∧ (∀ c ∈ ds, c.isDigit = true) ∧ n = decDigitsValue ds := by
  unfold decDigits
  by_cases h1 : ds = []
  · simp [h1]
  · rw [if_neg h1]
    by_cases h2 : ds.all Char.isDigit
    · rw [if_pos h2]
      constructor
      · intro h
        exact ⟨h1, fun c hc => List.all_eq_true.mp h2 c hc,
          (Option.some.injEq _ _ ▸ h).symm⟩
      · rintro ⟨_, _, h⟩
        rw [h]
    · rw [if_neg h2]
      constructor
      · intro h; exact Option.noConfusion h
      · rintro ⟨_, hdig, _⟩
        exact absurd (List.all_eq_true.mpr hdig) h2

/-- What the spec accepts, stated independently of the scanner: an optional
sign followed by a nonempty all-digit tail, valued as a decimal numeral. -/
def signedDecimalSpec (s : String) (v : Int) : Prop :=
  (s.data ≠ [] ∧ (∀ c ∈ s.data, c.isDigit = true) ∧
    v = Int.ofNat (decDigitsValue s.data)) ∨
  (∃ ds, s.data = '+' :: ds ∧ ds ≠ [] ∧ (∀ c ∈ ds, c.isDigit = true) ∧
    v = Int.ofNat (decDigitsValue ds)) ∨
  (∃ ds, s.data = '-' :: ds ∧ ds ≠ [] ∧ (∀ c ∈ ds, c.isDigit = true) ∧
    v = -(Int.ofNat (decDigitsValue ds)))

theorem bigIntSetString10_eq_some_iff (s : String) (v : Int) :
    bigIntSetString10 s = some v ↔ signedDecimalSpec s v := by
  unfold bigIntSetString10 signedDecimalSpec
  cases hd : s.data with
  | nil =>
    simp only [bigIntSetString10core]
    constructor
    · intro h; exact Option.noConfusion h
    · rintro (⟨hne, _, _⟩ | ⟨ds, heq, _⟩ | ⟨ds, heq, _⟩)
      · exact absurd rfl hne
      · exact List.noConfusion heq
      · exact List.noConfusion heq
  | cons c rest =>
    simp only [bigIntSetString10core]
    by_cases hplus : c = '+'
    · subst hplus
      rw [if_pos rfl]
      constructor
      · intro h
        obtain ⟨n, hn, hv⟩ := Option.map_eq_some'.mp h
        obtain ⟨hne, hdig, hval⟩ := decDigits_eq_some.mp hn
        refine Or.inr (Or.inl ⟨rest, rfl, hne, hdig, ?_⟩)
        rw [← hv, hval]
      · rintro (⟨_, hdig, _⟩ | ⟨ds, heq, hne, hdig, hval⟩ | ⟨ds, heq, _, _, _⟩)
        · exact absurd (hdig '+' (List.mem_cons_self _ _)) (by decide)
        · injection heq with _ h2
          subst h2
          rw [decDigits_eq_some.mpr ⟨hne, hdig, rfl⟩, Option.map_some', hval]
        · injection heq with h1 _
          exact absurd h1 (by decide)
    · by_cases hminus : c = '-'
      · subst hminus
        rw [if_neg (by decide), if_pos rfl]
        constructor
        · intro h
          obtain ⟨n, hn, hv⟩ := Option.map_eq_some'.mp h
          obtain ⟨hne, hdig, hval⟩ := decDigits_eq_some.mp hn
          refine Or.inr (Or.inr ⟨rest, rfl, hne, hdig, ?_⟩)
          rw [← hv, hval]
        · rintro (⟨_, hdig, _⟩ | ⟨ds, heq, _, _, _⟩ | ⟨ds, heq, hne, hdig, hval⟩)
          · exact absurd (hdig '-' (List.mem_cons_self _ _)) (by decide)
          · injection heq with h1 _
            exact absurd h1 (by decide)
          · injection heq with _ h2
            subst h2
            rw [decDigits_eq_some.mpr ⟨hne, hdig, rfl⟩, Option.map_some', hval]
      · rw [if_neg hplus, if_neg hminus]
        constructor
        · intro h
          obtain ⟨n, hn, hv⟩ := Option.map_eq_some'.mp h
          obtain ⟨_, hdig, hval⟩ := decDigits_eq_some.mp hn
          refine Or.inl ⟨List.cons_ne_nil _ _, hdig, ?_⟩
          rw [← hv, hval]
        · rintro (⟨_, hdig, hval⟩ | ⟨ds, heq, _, _, _⟩ | ⟨ds, heq, _, _, _⟩)
          · rw [decDigits_eq_some.mpr ⟨List.cons_ne_nil _ _, hdig, rfl⟩,
              Option.map_some', hval]
          · injection heq with h1 _
            exact absurd h1 hplus
          · injection heq with h1 _
            exact absurd h1 hminus

theorem parseReward_ok_iff {s : String} {v : Int} :
    parseReward s = Except.ok v ↔ bigIntSetString10 s = some v := by
  unfold parseReward
  cases h : bigIntSetString10 s with
  | none => simp
  | some r => simp

/-- C6 counterexample: the claim says parsing succeeds on exactly the valid
non-negative base-10 integers, but `big.Int.SetString(s, 10)` also accepts a
leading sign: `"-1"` parses successfully to the negative value `-1` instead
of failing with `MalformedReward`. -/
theorem c6_counterexample :
    parseReward "-1" = Except.ok (-1) ∧ ((-1 : Int) < 0) := by
  constructor
  · rfl
  · decide

/-- C6 (amended): reward parsing succeeds on exactly the strings that
consist of an optional leading `+` or `-` sign followed by one or more
ASCII decimal digits, returning the exact arbitrary-precision signed value
(e.g. `"1000000000000000000"` parses to `10^18` with no precision loss),
and fails with the invalid-reward-format error on every other string. -/
theorem c6_parse_reward :
    (∀ (s : String) (v : Int), parseReward s = Except.ok v ↔ signedDecimalSpec s v) ∧
    (∀ s : String, (∀ v : Int, ¬ signedDecimalSpec s v) →
      parseReward s = Except.error (GoErr.basic ("invalid reward format: " ++ s))) ∧
    parseReward "1000000000000000000" = Except.ok 1000000000000000000 := by
  refine ⟨?_, ?_, by rfl⟩
  · intro s v
    rw [parseReward_ok_iff]
    exact bigIntSetString10_eq_some_iff s v
  · intro s hns
    cases h : bigIntSetString10 s with
    | none => unfold parseReward; rw [h]
    | some r =>
      exact absurd ((bigIntSetString10_eq_some_iff s r).mp h) (hns r)

/-- C6 witness: a digit string parses to its value; the empty string (which
matches no disjunct of the grammar) fails with the invalid-format error. -/
theorem c6_witness :
    parseReward "007" = Except.ok 7 ∧
    parseReward "" = Except.error (GoErr.basic ("invalid reward format: " ++ "")) := by
  constructor
  · exact (c6_parse_reward.1 "007" 7).mpr (Or.inl ⟨by decide, by decide, by decide⟩)
  · refine c6_parse_reward.2.1 "" ?_
    intro v hspec
    rcases hspec with ⟨hne, _, _⟩ | ⟨ds, heq, _, _, _⟩ | ⟨ds, heq, _, _, _⟩
    · exact hne rfl
    · exact List.noConfusion heq
    · exact List.noConfusion heq

/-! ## Claims C4, C7, C9 -/

/-- Concrete reward breakdown used by the evaluation environments. -/
def rewardsOk : BlockRewards :=
  { proposerIndex := "1", total := "1000000000000000000", attestations := "0",
    syncAggregate := "0", proposerSlashings := "0", attesterSlashings := "0" }

/-- A collaborator reporting current slot 20000 and answering every fetch. -/
def boundsEnv : EthResponses :=
  { currentSlot := Except.ok 20000,
    block := fun _ => Except.ok mevTxBlock,
    blockRewards := fun _ => Except.ok rewardsOk,
    syncCommittee := fun _ => Except.ok ["v1", "v2"] }

/-- A collaborator reporting the largest representable current slot. -/
def wrapEnv : EthResponses :=
  { currentSlot := Except.ok (2 ^ 64 - 1),
    block := fun _ => Except.ok mevTxBlock,
    blockRewards := fun _ => Except.ok rewardsOk,
    syncCommittee := fun _ => Except.ok [] }

/-- C4 counterexample: the sync-duties bound is computed in `uint64`, so
`currentSlot + 32*256` wraps: at `currentSlot = 2^64 - 1` the slot
`2^64 - 1` is rejected as `SlotTooFarInFuture` although it does not exceed
`currentSlot + 256*32` arithmetically, contradicting the claim's "exactly
when slot > C + 256*32". -/
theorem c4_counterexample :
    getSyncCommitteeDuties wrapEnv (fun _ => none) (2 ^ 64 - 1) =
      SvcRes.err GoErr.slotTooFarInFuture ∧
    ¬ ((2 ^ 64 - 1 : Nat) > (2 ^ 64 - 1) + 32 * 256) := by
  constructor
  · decide
  · decide

/-- C4 (amended): on a cache miss with the oracle reporting current slot
`C`, `GetBlockReward(slot)` fails with `FutureSlot` exactly when
`slot > C` (so `slot = C` proceeds to fetch), and
`GetSyncCommitteeDuties(slot)` fails with `SlotTooFarInFuture` exactly when
`slot > (C + 256*32) mod 2^64` — the bound is `uint64` addition, which
coincides with the claim's `C + 256*32` whenever it does not overflow. -/
theorem c4_bounds (env : EthResponses) (cacheGet : String → Option CacheVal)
    (slot currentSlot : Nat)
    (hmiss1 : cacheGet ("block_reward:" ++ toString slot) = none)
    (hmiss2 : cacheGet ("sync_duties:" ++ toString slot) = none)
    (hcur : env.currentSlot = Except.ok currentSlot) :
    (getBlockReward env cacheGet slot = SvcRes.err GoErr.futureSlot ↔ slot > currentSlot) ∧
    (getSyncCommitteeDuties env cacheGet slot = SvcRes.err GoErr.slotTooFarInFuture ↔
      slot > (currentSlot + 32 * 256) % UINT64_MOD) := by
  constructor
  · simp only [getBlockReward, hmiss1, hcur]
    by_cases hs : slot > currentSlot
    · simp [hs]
    · rw [if_neg hs]
      cases hb : env.block slot with
      | error e =>
        by_cases hnf : IsNotFound e <;> simp [hnf, hs]
      | ok b =>
        cases hr : env.blockRewards slot with
        | error e => simp [hs]
        | ok rewards =>
          cases hp : parseReward rewards.total with
          | error e => simp [hs, hp]
          | ok r => simp [hs, hp]
  · simp only [getSyncCommitteeDuties, hmiss2, hcur]
    by_cases hs : slot > (currentSlot + 32 * 256) % UINT64_MOD
    · simp [hs]
    · rw [if_neg hs]
      cases hb : env.syncCommittee slot with
      | error e =>
        by_cases hnf : IsNotFound e <;> simp [hnf, hs]
      | ok validators => simp [hs]

/-- C4 witness: with current slot 20000, slot 20001 is a future slot for the
reward path and slot 28193 (one past `20000 + 256*32 = 28192`) is too far in
the future for the sync-duties path. -/
theorem c4_witness :
    getBlockReward boundsEnv (fun _ => none) 20001 = SvcRes.err GoErr.futureSlot ∧
    getSyncCommitteeDuties boundsEnv (fun _ => none) 28193 =
      SvcRes.err GoErr.slotTooFarInFuture := by
  constructor
  · exact (c4_bounds boundsEnv (fun _ => none) 20001 20000 rfl rfl rfl).1.mpr (by decide)
  · exact (c4_bounds boundsEnv (fun _ => none) 28193 20000 rfl rfl rfl).2.mpr (by decide)

/-- C7: for an in-bounds slot, a fetch reporting "not found" surfaces as the
`SlotNotFound` sentinel itself (never escalated into a wrapped generic
error), `IsNotFound` holds of it, and it is distinct from `FutureSlot`;
conversely a transport failure is wrapped with context and is not
classified as `SlotNotFound`. -/
theorem c7_not_found_propagation (env : EthResponses)
    (cacheGet : String → Option CacheVal) (slot currentSlot : Nat) (e : GoErr)
    (hcur : env.currentSlot = Except.ok currentSlot) :
    (cacheGet ("block_reward:" ++ toString slot) = none → slot ≤ currentSlot →
      env.block slot = Except.error e → IsNotFound e = true →
      getBlockReward env cacheGet slot = SvcRes.err GoErr.slotNotFound) ∧
    (cacheGet ("block_reward:" ++ toString slot) = none → slot ≤ currentSlot →
      env.block slot = Except.error e → IsNotFound e = false →
      getBlockReward env cacheGet slot =
        SvcRes.err (GoErr.wrap "failed to get block" e) ∧
      IsNotFound (GoErr.wrap "failed to get block" e) = false) ∧
    (cacheGet ("sync_duties:" ++ toString slot) = none →
      slot ≤ (currentSlot + 32 * 256) % UINT64_MOD →
      env.syncCommittee slot = Except.error e → IsNotFound e = true →
      getSyncCommitteeDuties env cacheGet slot = SvcRes.err GoErr.slotNotFound) ∧
    (cacheGet ("sync_duties:" ++ toString slot) = none →
      slot ≤ (currentSlot + 32 * 256) % UINT64_MOD →
      env.syncCommittee slot = Except.error e → IsNotFound e = false →
      getSyncCommitteeDuties env cacheGet slot =
        SvcRes.err (GoErr.wrap "failed to get sync committee" e) ∧
      IsNotFound (GoErr.wrap "failed to get sync committee" e) = false) ∧
    IsNotFound GoErr.slotNotFound = true ∧
    IsNotFound GoErr.futureSlot = false ∧
    GoErr.slotNotFound ≠ GoErr.futureSlot := by
  refine ⟨?_, ?_, ?_, ?_, by decide, by decide, by decide⟩
  · intro hmiss hle hb hnf
    simp [getBlockReward, hmiss, hcur, not_lt.mpr hle, hb, hnf]
  · intro hmiss hle hb hnf
    refine ⟨by simp [getBlockReward, hmiss, hcur, not_lt.mpr hle, hb, hnf], ?_⟩
    simp only [IsNotFound] at hnf ⊢
    simp [errorsIs, hnf]
  · intro hmiss hle hb hnf
    simp [getSyncCommitteeDuties, hmiss, hcur, not_lt.mpr hle, hb, hnf]
  · intro hmiss hle hb hnf
    refine ⟨by simp [getSyncCommitteeDuties, hmiss, hcur, not_lt.mpr hle, hb, hnf], ?_⟩
    simp only [IsNotFound] at hnf ⊢
    simp [errorsIs, hnf]

/-- A collaborator whose fetches all report "not found". -/
def notFoundEnv : EthResponses :=
  { currentSlot := Except.ok 20000,
    block := fun _ => Except.error GoErr.slotNotFound,
    blockRewards := fun _ => Except.error GoErr.slotNotFound,
    syncCommittee := fun _ => Except.error GoErr.slotNotFound }

/-- C7 witness: an in-bounds slot whose fetches report "not found" yields
`SlotNotFound` on both paths. -/
theorem c7_witness :
    getBlockReward notFoundEnv (fun _ => none) 100 = SvcRes.err GoErr.slotNotFound ∧
    getSyncCommitteeDuties notFoundEnv (fun _ => none) 100 =
      SvcRes.err GoErr.slotNotFound := by
  have h := c7_not_found_propagation notFoundEnv (fun _ => none) 100 20000
    GoErr.slotNotFound rfl
  exact ⟨h.1 rfl (by decide) rfl (by decide), h.2.2.1 rfl (by decide) rfl (by decide)⟩

/-- C9: the pure helpers compute `epoch = slot / 32`,
`period = epoch / 256`, `periodStartSlot = period * 256 * 32`, and on a
cache miss within bounds the sync-duties resolution requests the committee
validator list for exactly the state at `((slot/32)/256) * 256 * 32`. -/
theorem c9_sync_committee_state (f : Nat → Except GoErr (List String))
    (env : EthResponses) (cacheGet : String → Option CacheVal)
    (slot currentSlot : Nat)
    (hmiss : cacheGet ("sync_duties:" ++ toString slot) = none)
    (hcur : env.currentSlot = Except.ok currentSlot)
    (hsc : env.syncCommittee = fun s => GetSyncCommittee f s)
    (hbound : slot ≤ (currentSlot + 32 * 256) % UINT64_MOD) :
    (∀ s : Nat, slotToEpoch s = s / 32) ∧
    (∀ ep : Nat, epochToSyncCommitteePeriod ep = ep / 256) ∧
    (∀ p : Nat, syncCommitteePeriodToSlot p = p * 256 * 32) ∧
    (∀ s : Nat, GetSyncCommittee f s = f (((s / 32) / 256) * 256 * 32)) ∧
    (getSyncCommitteeDuties env cacheGet slot =
      match f (((slot / 32) / 256) * 256 * 32) with
      | Except.ok validators => SvcRes.ok { validators := validators }
      | Except.error e =>
        if IsNotFound e then SvcRes.err GoErr.slotNotFound
        else SvcRes.err (GoErr.wrap "failed to get sync committee" e)) := by
  refine ⟨fun s => rfl, fun ep => rfl, fun p => rfl, fun s => rfl, ?_⟩
  simp only [getSyncCommitteeDuties, hmiss, hcur]
  rw [if_neg (not_lt.mpr hbound)]
  rw [hsc]
  simp only [GetSyncCommittee]
  cases hf : f (((slot / 32) / 256) * 256 * 32) with
  | error e => rfl
  | ok validators => rfl

/-- The state-level sync-committee fetch used by the C9 evaluation: only the
state at slot 0 (period 0) exists. -/
def stateFetch (stateSlot : Nat) : Except GoErr (List String) :=
  if stateSlot = 0 then Except.ok ["a", "b"] else Except.error GoErr.slotNotFound

/-- An environment whose sync-committee fetch goes through
`client.GetSyncCommittee` over `stateFetch`. -/
def c9env : EthResponses :=
  { currentSlot := Except.ok 20000,
    block := fun _ => Except.ok mevTxBlock,
    blockRewards := fun _ => Except.ok rewardsOk,
    syncCommittee := fun s => GetSyncCommittee stateFetch s }

/-- C9 witness: slot 100 lies in period 0, whose start slot is 0, so the
resolution returns the validators of the state at slot 0. -/
theorem c9_witness :
    getSyncCommitteeDuties c9env (fun _ => none) 100 =
      SvcRes.ok { validators := ["a", "b"] } := by
  have h := c9_sync_committee_state stateFetch c9env (fun _ => none) 100 20000
    rfl rfl rfl (by decide)
  rw [h.2.2.2.2]
  rfl

/-! ## Claim C8 -/

/-- C8: the claim (and spec) require that a double `Close` must not crash,
but `Close` is a bare `close(c.stopChan)` and Go panics on closing a closed
channel: the first `Close` succeeds, the second panics. -/
theorem c8_double_close_panics :
    (NewMemoryCache Nat 300 1000).close =
      Except.ok { items := [], ttl := 300, maxSize := 1000,
                  stopChan := { closed := true } } ∧
    (MemoryCache.close { items := [], ttl := 300, maxSize := 1000,
                         stopChan := { closed := true } } : Except String (MemoryCache Nat)) =
      Except.error "close of closed channel" := by
  constructor
  · rfl
  · rfl
